import Mathlib

/-!
Verification development for the uppaal-py clock-constraint path-realizability
engine (`path_analysis.py`, `expr.py`, `simplethings.py`, `context.py`).

The Python code is shallowly embedded: pure functions become Lean functions,
Python dictionaries become association lists (preserving insertion order),
fallible operations (KeyError / IndexError) return `Option`, and the external
LP solver is modelled mathematically by the predicate `Feasible` over the
constraint system (matrix `A`, vector `B`) that the engine constructs.
-/

namespace Uppaalpy

/-! ## Association lists modelling Python dictionaries -/

/-- Lookup in an association list, modelling `d[k]` returning a value (a
missing key, Python's `KeyError`, is `none`). -/
def alookup {α : Type} (k : String) : List (String × α) → Option α
  | [] => none
  | (k₂, v) :: rest => if k₂ = k then some v else alookup k rest

/-- Assignment `d[k] = v` in a Python dictionary: an existing key keeps its
position, a new key is appended (Python dicts preserve insertion order). -/
def aset {α : Type} (k : String) (v : α) : List (String × α) → List (String × α)
  | [] => [(k, v)]
  | (k₂, v₂) :: rest => if k₂ = k then (k, v) :: rest else (k₂, v₂) :: aset k v rest

/-! ## String helpers

Python's `str.strip` and `str.split` are re-implemented structurally (rather
than through the core library's well-founded-recursion versions) so that
every definition evaluates by kernel reduction. -/

/-- Drop leading whitespace characters. -/
def dropLeadingSpace : List Char → List Char
  | [] => []
  | c :: rest => if c.isWhitespace then dropLeadingSpace rest else c :: rest

/-- Python `s.strip()`: remove leading and trailing whitespace. -/
def pyStrip (s : String) : String :=
  String.mk ((dropLeadingSpace (dropLeadingSpace s.data).reverse).reverse)

/-- Worker for `splitOnChar`; `acc` holds the current piece in reverse. -/
def splitOnCharAux (sep : Char) : List Char → List Char → List String
  | acc, [] => [String.mk acc.reverse]
  | acc, c :: rest =>
    if c = sep then String.mk acc.reverse :: splitOnCharAux sep [] rest
    else splitOnCharAux sep (c :: acc) rest

/-- Python `s.split(sep)` for a one-character separator (the only shape the
source uses on the realizability code paths: splitting on `"-"`). -/
def splitOnChar (sep : Char) (s : String) : List String :=
  splitOnCharAux sep [] s.data

/-! ## Integer literals: Python `int(string)` on optional-sign decimals -/

/-- Value of a decimal digit character, `none` for non-digits. -/
def digitVal (c : Char) : Option Nat :=
  if c.isDigit then some (c.toNat - 48) else none

/-- Parse a non-empty all-digit character list as a natural number. -/
def parseDigits (cs : List Char) : Option Nat :=
  if cs.isEmpty then none
  else cs.foldl (fun acc c => do pure ((← acc) * 10 + (← digitVal c))) (some 0)

/-- Model of Python `int(s)` on the identifier space in play: strip
whitespace, optional sign, decimal digits; `none` models `ValueError`. -/
def int_of_string (s : String) : Option Int :=
  match (pyStrip s).data with
  | '-' :: rest => (parseDigits rest).map (fun n => -(n : Int))
  | '+' :: rest => (parseDigits rest).map (fun n => (n : Int))
  | cs => (parseDigits cs).map (fun n => (n : Int))

/-! ## Context (`classes/context.py`) -/

/-- `Context`: declared clocks, constants and variables with initial values
(`classes/context.py`).  The Python `set`/`dict` collections are lists
preserving insertion order. -/
structure Context where
  clocks : List String
  constants : List (String × Int)
  initial_state : List (String × Int)
deriving DecidableEq, Repr

/-- `Context.is_clock`: membership in the clocks set. -/
def Context.is_clock (ctx : Context) (i : String) : Bool :=
  ctx.clocks.contains i

/-- `Context.is_constant`: key of the constants dict. -/
def Context.is_constant (ctx : Context) (i : String) : Bool :=
  (alookup i ctx.constants).isSome

/-- `Context.is_variable`: key of the initial_state dict. -/
def Context.is_variable (ctx : Context) (i : String) : Bool :=
  (alookup i ctx.initial_state).isSome

/-- `Context.is_literal`: the string parses as a base-10 integer. -/
def Context.is_literal (s : String) : Bool :=
  (int_of_string s).isSome

/-- `Context.get_val`: value of a literal, a constant or a variable; `none`
models the `KeyError` raised on an undefined identifier. -/
def Context.get_val (ctx : Context) (i : String) : Option Int :=
  if Context.is_literal i then int_of_string i
  else if ctx.is_constant i then alookup i ctx.constants
  else alookup i ctx.initial_state

/-- `MutableContext` has the same data as `Context` (it is a subclass adding
only a `set_val` method); in this value-level embedding they coincide.  The
heap-level deep-copy semantics of `to_MutableContext` is modelled separately
in the store-based section below. -/
def Context.to_MutableContext (ctx : Context) : Context := ctx

/-- `MutableContext.set_val`: dictionary assignment on the variables map. -/
def Context.set_val (ctx : Context) (i : String) (v : Int) : Context :=
  { ctx with initial_state := aset i v ctx.initial_state }

/-! ## Expression tokenizing and parsing (`classes/expr.py`) -/

/-- Worker for `Expression.tokenize`: scan for the first operator character;
`acc` holds the characters already passed, in reverse. -/
def tokenizeAux (ops : List Char) : List Char → List Char → Option (String × String × String)
  | _, [] => some ("", "", "")
  | acc, c :: rest =>
    if ops.contains c then
      match rest with
      | [] => none
      | nextc :: rest₂ =>
        let lhs := pyStrip (String.mk acc.reverse)
        if ops.contains nextc then
          some (lhs, String.mk [c, nextc], pyStrip (String.mk rest₂))
        else
          some (lhs, String.mk [c], pyStrip (String.mk rest))
    else tokenizeAux ops (c :: acc) rest

/-- `Expression.tokenize(string, ops)`: split at the first (one- or
two-character) operator; when no operator character occurs the Python
function returns `("", "", "")`; `none` models the `IndexError` raised when
the operator character is the last character of the string. -/
def tokenize (s : String) (ops : String) : Option (String × String × String) :=
  tokenizeAux ops.toList [] s.toList

/-- `UpdateExpression` (and its subclass `ClockResetExpression`, recorded by
the `is_clock_reset` flag): `lhs`, `op`, `rhs` from `tokenize`. -/
structure UpdateExpression where
  lhs : String
  op : String
  rhs : String
  is_clock_reset : Bool
deriving DecidableEq, Repr

/-- `UpdateExpression.parse_expr`: tokenize with the default operator set
`"=<>!+-"`; when the left-hand side is a clock of the context the result is a
`ClockResetExpression` (whose `clock` attribute is its `lhs`), regardless of
the operator and right-hand side. -/
def UpdateExpression.parse_expr (s : String) (ctx : Context) : Option UpdateExpression :=
  match tokenize s "=<>!+-" with
  | none => none
  | some (lhs, op, rhs) =>
    some { lhs := lhs, op := op, rhs := rhs, is_clock_reset := ctx.is_clock lhs }

/-- `UpdateExpression.handle_update`: apply `=`, `+=` or `-=` to the mutable
context; `none` models the exceptions raised on an undefined identifier or an
operator missing from the dispatch dictionary. -/
def UpdateExpression.handle_update (u : UpdateExpression) (ctx : Context) : Option Context :=
  match ctx.get_val u.lhs, ctx.get_val u.rhs with
  | some cur, some rhs =>
    if u.op = "=" then some (ctx.set_val u.lhs rhs)
    else if u.op = "+=" then some (ctx.set_val u.lhs (cur + rhs))
    else if u.op = "-=" then some (ctx.set_val u.lhs (cur - rhs))
    else none
  | _, _ => none

/-- `ClockConstraintExpression`: one or two clocks (two meaning the clock
difference `clocks[0] - clocks[1]`), the one-character `operator`, the
`equality` flag (two-character operator) and the `threshold` string (the
side of the expression not holding the clocks). -/
structure ClockConstraintExpression where
  clocks : List String
  operator : String
  equality : Bool
  threshold : String
deriving DecidableEq, Repr

/-- `ClockConstraintExpression.__init__` on an expression string: tokenize
with `"<>="`; the threshold is the side that is a constant, a literal or a
variable, the clocks are the other side split on `-`; `none` models the
`IndexError` of `self.op[0]` when no operator was found. -/
def ClockConstraintExpression.parse (s : String) (ctx : Context) :
    Option ClockConstraintExpression :=
  match tokenize s "<>=" with
  | none => none
  | some (lhs, op, rhs) =>
    if op.data.isEmpty then none
    else
      let thresholdLeft := ctx.is_constant lhs || Context.is_literal lhs || ctx.is_variable lhs
      let cks := if thresholdLeft then (splitOnChar '-' rhs).map pyStrip
                 else (splitOnChar '-' lhs).map pyStrip
      some { clocks := cks, operator := String.mk (op.data.take 1),
             equality := op.data.length = 2,
             threshold := if thresholdLeft then lhs else rhs }

/-- `ConstraintExpression`: either a clock constraint or a generic
(statically evaluable) constraint; the runtime `isinstance` dispatch of the
Python code becomes a match on this sum. -/
inductive ConstraintExpression where
  | clock (cce : ClockConstraintExpression)
  | generic (lhs : String) (op : String) (rhs : String)
deriving DecidableEq, Repr

/-- `ConstraintExpression.parse_expr`: dispatch to the clock-aware variant
when either side, split further on `-`, names a clock of the context. -/
def ConstraintExpression.parse_expr (s : String) (ctx : Context) :
    Option ConstraintExpression :=
  match tokenize s "<>=" with
  | none => none
  | some (lhs, op, rhs) =>
    if ((splitOnChar '-' lhs) ++ (splitOnChar '-' rhs)).any
        (fun x => ctx.is_clock (pyStrip x)) then
      (ClockConstraintExpression.parse s ctx).map ConstraintExpression.clock
    else
      some (ConstraintExpression.generic lhs op rhs)

/-! ## Labels (`classes/simplethings.py`) -/

/-- `ConstraintLabel`: the parsed constraint list of a guard or invariant
(the serialization-only fields `kind`, `value`, `pos` are omitted). -/
structure ConstraintLabel where
  constraints : List ConstraintExpression
deriving DecidableEq, Repr

/-- `UpdateLabel`: the parsed update list of a transition assignment. -/
structure UpdateLabel where
  updates : List UpdateExpression
deriving DecidableEq, Repr

/-- `UpdateLabel.get_resets`: clocks to be reset, in first-occurrence order,
collecting the `clock` (= `lhs`) of every `ClockResetExpression`. -/
def UpdateLabel.get_resets (lab : UpdateLabel) : List String :=
  lab.updates.foldl
    (fun res e =>
      if e.is_clock_reset && !res.contains e.lhs then res ++ [e.lhs] else res) []

/-- `UpdateLabel.get_other_updates`: the updates that are not clock resets. -/
def UpdateLabel.get_other_updates (lab : UpdateLabel) : List UpdateExpression :=
  lab.updates.filter (fun e => !e.is_clock_reset)

/-! ## Templates, locations, transitions and paths -/

/-- `Template`: only its `context` attribute is consumed by the realizability
engine (`path[0].template.context`); the graph layer is an external
collaborator. -/
structure Template where
  context : Context
deriving DecidableEq, Repr

/-- `Location` (`classes/nodes.py`): `id`, optional `invariant`, and the
back-reference `template` set by `TAGraph.add_location` (`none` until then).
The drawing-related fields are omitted. -/
structure Location where
  id : String
  invariant : Option ConstraintLabel
  template : Option Template
deriving DecidableEq, Repr

/-- `Transition` (`classes/transitions.py`): `source`, `target`, optional
`guard` and optional `assignment`. -/
structure Transition where
  source : String
  target : String
  guard : Option ConstraintLabel
  assignment : Option UpdateLabel
deriving DecidableEq, Repr

/-- `Location.get_constraints`: the invariant's constraints, or `[]`. -/
def Location.get_constraints (l : Location) : List ConstraintExpression :=
  match l.invariant with
  | some lab => lab.constraints
  | none => []

/-- `Transition.get_constraints`: the guard's constraints, or `[]`. -/
def Transition.get_constraints (t : Transition) : List ConstraintExpression :=
  match t.guard with
  | some lab => lab.constraints
  | none => []

/-- A path is the alternating odd-length list
`[Location, Transition, Location, ..., Location]` of `path_analysis.py`,
represented by its first location and the list of (transition, location)
segments; `rest.length` is the segment count `len(path) // 2`. -/
structure Path where
  first : Location
  rest : List (Transition × Location)
deriving DecidableEq, Repr

/-- Worker for `path_exists`, walking the segments in order. -/
def path_exists_aux : Location → List (Transition × Location) → Bool
  | _, [] => true
  | cur, (t, nxt) :: rest =>
    cur.id = t.source && nxt.id = t.target && path_exists_aux nxt rest

/-- `path_exists(path)`: every transition at an odd index goes from the
preceding location to the following location. -/
def path_exists (p : Path) : Bool :=
  path_exists_aux p.first p.rest

/-- Clocks of one constraint appended to the running dedup list, in order
(`find_used_clocks`'s inner loops; non-clock constraints are skipped). -/
def addClocksOf (res : List String) (c : ConstraintExpression) : List String :=
  match c with
  | .clock cce => cce.clocks.foldl (fun r ck => if r.contains ck then r else r ++ [ck]) res
  | .generic _ _ _ => res

/-- Insert a string into an ascending list (for the final `res.sort()`). -/
def insortString (x : String) : List String → List String
  | [] => [x]
  | y :: ys => if x < y ∨ x = y then x :: y :: ys else y :: insortString x ys

/-- Ascending insertion sort on strings, modelling Python `list.sort()`. -/
def sortStrings (l : List String) : List String :=
  l.foldr insortString []

/-- The constraints of the path's elements in path order: first location,
then transition and location of each segment. -/
def Path.all_constraints (p : Path) : List ConstraintExpression :=
  p.first.get_constraints ++
    (p.rest.map (fun tl => tl.1.get_constraints ++ tl.2.get_constraints)).flatten

/-- `find_used_clocks(path)`: the sorted list of clocks appearing in clock
constraints along the path, first-occurrence deduplicated before sorting. -/
def find_used_clocks (p : Path) : List String :=
  sortStrings (p.all_constraints.foldl addClocksOf [])

/-! ## The LP construction (`path_realizable_with_initial_valuation`) -/

/-- `EPS = 2 ** (-10)` from `path_analysis.py` (exact in binary floating
point, hence exactly represented here as a rational). -/
def EPS : ℚ := 1 / 1024

/-- The running state of the LP construction: the rows `A`, the right-hand
sides `B`, the `clock_to_delay` dictionary and the mutable context. -/
structure LPBuild where
  A : List (List ℚ)
  B : List ℚ
  ctd : List (String × List Nat)
  ctx : Context
deriving DecidableEq, Repr

/-- `compute_constraint(clock_to_delay, exp, variable_count, ctx,
add_epsilon, skip_var_threshold)`: build the row(s) of the LP for one clock
constraint.  `+1` is assigned (not added) at each delay variable of the
first clock, `1` is subtracted at each delay variable of the second clock of
a clock difference; a `>` constraint is negated into `<=` form; `EPS` is then
subtracted from the right-hand side of strict constraints when `add_epsilon`;
an `=` constraint also emits the negated row.  `none` models the exceptions
on an empty clock list, a clock missing from `clock_to_delay`, or an
unresolvable threshold. -/
def compute_constraint (ctd : List (String × List Nat)) (exp : ClockConstraintExpression)
    (variable_count : Nat) (ctx : Context) (add_epsilon : Bool)
    (skip_var_threshold : Bool) : Option (List (List ℚ) × List ℚ) :=
  if ctx.is_variable exp.threshold && skip_var_threshold then some ([], [])
  else
    match exp.clocks.head? with
    | none => none
    | some c₀ =>
      match alookup c₀ ctd with
      | none => none
      | some l₀ =>
        let row₀ := l₀.foldl (fun r i => r.set i 1) (List.replicate variable_count (0 : ℚ))
        let rowOpt :=
          if exp.clocks.length = 2 then
            match exp.clocks.get? 1 with
            | none => none
            | some c₁ =>
              match alookup c₁ ctd with
              | none => none
              | some l₁ => some (l₁.foldl (fun r i => r.set i (r.getD i 0 - 1)) row₀)
          else some row₀
        match rowOpt with
        | none => none
        | some row₁ =>
          match ctx.get_val exp.threshold with
          | none => none
          | some t =>
            let b₀ : ℚ := (t : ℚ)
            let rowN := if exp.operator = ">" then row₁.map (fun x => -x) else row₁
            let bN := if exp.operator = ">" then -b₀ else b₀
            let bE := if add_epsilon && exp.equality = false then bN - EPS else bN
            if exp.operator = "=" then some ([rowN, rowN.map (fun x => -x)], [bE, -bE])
            else some ([rowN], [bE])

/-- Emit the rows for a list of constraints, skipping the ones that are not
`ClockConstraintExpression`s (the `isinstance` filter of the walk loops). -/
def emit_constraints (var_count : Nat) (add_eps vstate : Bool) :
    List ConstraintExpression → LPBuild → Option LPBuild
  | [], st => some st
  | .generic _ _ _ :: rest, st => emit_constraints var_count add_eps vstate rest st
  | .clock cce :: rest, st =>
    match compute_constraint st.ctd cce var_count st.ctx add_eps vstate with
    | none => none
    | some (a, b) =>
      emit_constraints var_count add_eps vstate rest
        { st with A := st.A ++ a, B := st.B ++ b }

/-- Emit the rows for an optional invariant or guard label. -/
def emit_label (var_count : Nat) (add_eps vstate : Bool)
    (lab : Option ConstraintLabel) (st : LPBuild) : Option LPBuild :=
  match lab with
  | none => some st
  | some l => emit_constraints var_count add_eps vstate l.constraints st

/-- Clear the `clock_to_delay` entry of every reset clock. -/
def apply_resets (resets : List String) (ctd : List (String × List Nat)) :
    List (String × List Nat) :=
  resets.foldl (fun m c => aset c [] m) ctd

/-- Run `handle_update` for each non-reset update, left to right. -/
def apply_updates : List UpdateExpression → Context → Option Context
  | [], ctx => some ctx
  | u :: rest, ctx =>
    match u.handle_update ctx with
    | none => none
    | some ctx₂ => apply_updates rest ctx₂

/-- The resets-and-updates step of a segment: resets empty the clock's
delay-variable list, the remaining updates mutate the running context. -/
def apply_assignment (asg : Option UpdateLabel) (st : LPBuild) : Option LPBuild :=
  let pr := match asg with
    | none => (([] : List String), ([] : List UpdateExpression))
    | some lab => (lab.get_resets, lab.get_other_updates)
  match apply_updates pr.2 st.ctx with
  | none => none
  | some ctx₂ => some { st with ctd := apply_resets pr.1 st.ctd, ctx := ctx₂ }

/-- `clock_to_delay[c].append(i // 2 + 1 + delay_var_offset)` for every used
clock, after a segment has been processed. -/
def append_delays (clocks : List String) (idx : Nat) (ctd : List (String × List Nat)) :
    List (String × List Nat) :=
  clocks.foldl (fun m c => aset c ((alookup c m).getD [] ++ [idx]) m) ctd

/-- The main loop `for i in range(0, len(path) - 1, 2)`: for segment `s`
emit the source-location invariant, the guard, apply resets and updates,
emit the target-location invariant, then append the next delay variable
`s + 1 + offset` to every clock's list. -/
def walk_segments (clocks : List String) (var_count offset : Nat)
    (add_eps vstate : Bool) :
    Nat → Location → List (Transition × Location) → LPBuild → Option LPBuild
  | _, _, [], st => some st
  | s, cur, (t, nxt) :: rest, st =>
    match emit_label var_count add_eps vstate cur.invariant st with
    | none => none
    | some st₁ =>
      match emit_label var_count add_eps vstate t.guard st₁ with
      | none => none
      | some st₂ =>
        match apply_assignment t.assignment st₂ with
        | none => none
        | some st₃ =>
          match emit_label var_count add_eps vstate nxt.invariant st₃ with
          | none => none
          | some st₄ =>
            walk_segments clocks var_count offset add_eps vstate (s + 1) nxt rest
              { st₄ with ctd := append_delays clocks (s + 1 + offset) st₄.ctd }

/-- The `icv_constants` initialisation loop (lines 173-188 of
`path_analysis.py`): for the clock of index `i` append the row `-icv_i <= 0`
(the local `b[0] = 0` was already appended to `B` as a Python int before the
`b[0] = icv_c` reassignment, so `B` keeps the value `0`), set
`clock_to_delay[c] = [i, delay_var_offset]`, and for a pinned clock also
append the negated row with right-hand side `-icv_constants[c]`; a clock
absent from the mapping takes the `except: pass` branch. -/
def icv_init (clocks : List String) (icv : List (String × Int))
    (var_count offset : Nat) : List (List ℚ) × List ℚ × List (String × List Nat) :=
  clocks.enum.foldl
    (fun acc ic =>
      let row₁ := (List.replicate var_count (0 : ℚ)).set ic.1 (-1)
      let A := acc.1 ++ [row₁]
      let B := acc.2.1 ++ [(0 : ℚ)]
      let ctd := aset ic.2 [ic.1, offset] acc.2.2
      match alookup ic.2 icv with
      | some v => (A ++ [row₁.map (fun x => -x)], B ++ [(-(v : ℚ))], ctd)
      | none => (A, B, ctd))
    ([], [], [])

/-- The second `for i, c in enumerate(clocks)` loop (lines 190-191), which
rewrites `clock_to_delay[c] = [i, delay_var_offset]`. -/
def icv_ctd_fix (clocks : List String) (offset : Nat)
    (ctd : List (String × List Nat)) : List (String × List Nat) :=
  clocks.enum.foldl (fun m ic => aset ic.2 [ic.1, offset] m) ctd

/-- The outcome of `path_realizable_with_initial_valuation` up to the solver
call: either the early `(False, [])` return on a failed `path_exists` check
(no LP is constructed), or the constructed LP handed to the solver. -/
inductive LPOutcome where
  | earlyExit
  | lp (A : List (List ℚ)) (B : List ℚ) (var_count : Nat)
deriving DecidableEq, Repr

/-- `path_realizable_with_initial_valuation(path, validate_path,
validate_state, add_epsilon, icv_constants, clocks)` embedded up to the
solver call, which is an external collaborator: the returned `LPOutcome`
holds the rows `A`, right-hand sides `B` and the variable count of the LP
the function submits (feasibility of which is the predicate `Feasible`
below); `none` models an uncaught exception. -/
def path_realizable_with_initial_valuation (p : Path)
    (validate_path validate_state add_epsilon : Bool)
    (icv_constants : Option (List (String × Int)))
    (clocksOpt : Option (List String)) : Option LPOutcome :=
  if validate_path && !path_exists p then some LPOutcome.earlyExit
  else
    match p.first.template with
    | none => none
    | some tmpl =>
      let ctx := tmpl.context.to_MutableContext
      let clocks := match clocksOpt with
        | none => find_used_clocks p
        | some cs => cs
      let delay_var_count := p.rest.length
      match icv_constants with
      | some icv =>
        let icv_var_count := clocks.length
        let var_count := delay_var_count + icv_var_count
        let offset := icv_var_count
        let init := icv_init clocks icv var_count offset
        let ctd₀ := icv_ctd_fix clocks offset init.2.2
        match walk_segments clocks var_count offset add_epsilon validate_state 0
          p.first p.rest ⟨init.1, init.2.1, ctd₀, ctx⟩ with
        | none => none
        | some st => some (LPOutcome.lp st.A st.B var_count)
      | none =>
        let var_count := delay_var_count
        let ctd₀ := clocks.foldl (fun m c => aset c [0] m) []
        match walk_segments clocks var_count 0 add_epsilon validate_state 0
          p.first p.rest ⟨[], [], ctd₀, ctx⟩ with
        | none => none
        | some st => some (LPOutcome.lp st.A st.B var_count)

/-- `path_realizable(path, validate_path, validate_state, add_epsilon)`:
the wrapper forwarding to the initial-valuation variant with `icv_constants`
and `clocks` left as `None`. -/
def path_realizable (p : Path) (validate_path validate_state add_epsilon : Bool) :
    Option LPOutcome :=
  path_realizable_with_initial_valuation p validate_path validate_state add_epsilon
    none none

/-! ## The solver model -/

/-- The value `a_i1 * x_1 + ... + a_in * x_n` of a row at a point. -/
def dot (r x : List ℚ) : ℚ :=
  (List.zipWith (fun a b => a * b) r x).sum

/-- A point satisfies the LP: all coordinates non-negative (the solver
declares every variable with bounds `[0, infinity)`) and every row
`A_i . x <= B_i`. -/
def FeasiblePoint (A : List (List ℚ)) (B : List ℚ) (x : List ℚ) : Prop :=
  (∀ v ∈ x, 0 ≤ v) ∧ ∀ i, i < A.length → dot (A.getD i []) x ≤ B.getD i 0

/-- Feasibility of the constructed LP, the mathematical specification of the
external solver call: the function returns `(True, delays)` exactly on
feasible systems and `(False, [])` otherwise. -/
def Feasible (A : List (List ℚ)) (B : List ℚ) (n : Nat) : Prop :=
  ∃ x : List ℚ, x.length = n ∧ FeasiblePoint A B x

/-! ## Python truthiness of the returned tuple

`find_all_semi_realizable_paths` and `check_dp` branch directly on the pair
returned by the realizability functions (`if path_realizable_with_...(...)`),
so the branch condition is the truthiness of a Python tuple, not the boolean
inside it.  The small value model below captures this. -/

/-- A fragment of Python's value model, enough for the returned
`Tuple[bool, List[float]]`. -/
inductive PyObj where
  | pybool (b : Bool)
  | pyfloat (q : ℚ)
  | pylist (l : List PyObj)
  | pytuple (l : List PyObj)
deriving Repr

/-- Python truthiness: a bool is itself, a number is non-zero, a list or
tuple is non-empty. -/
def PyObj.truthy : PyObj → Bool
  | .pybool b => b
  | .pyfloat q => q != 0
  | .pylist l => !l.isEmpty
  | .pytuple l => !l.isEmpty

/-- The value `(flag, delays)` returned by
`path_realizable_with_initial_valuation`: a two-element tuple. -/
def realizable_return (flag : Bool) (delays : List ℚ) : PyObj :=
  .pytuple [.pybool flag, .pylist (delays.map .pyfloat)]

/-- `check_dp(init, target, table)` given the solver results: iterate the
stored paths of `table[init][target]` and return `True` as soon as
`path_realizable(p, True, True)` — a tuple — is truthy. -/
def check_dp (result : Path → Bool × List ℚ) (pps : List (List Path)) : Bool :=
  pps.any (fun ps => ps.any (fun p => (realizable_return (result p).1 (result p).2).truthy))

/-- The guard of the DP append sites in `find_all_semi_realizable_paths`
(lines 398 and 414): the truthiness of the returned tuple. -/
def dp_append_guard (result : Bool × List ℚ) : Bool :=
  (realizable_return result.1 result.2).truthy

/-! ## Spec-side predicate for claim C4 -/

/-- Holds when a clock constraint with a constant threshold is satisfied by
accumulated clock value `0`, the property the specification asserts is
checked for the sole location of a length-1 path (written from the spec's
words, to be compared with what the code computes). -/
def clock_constraint_holds_at_zero (ctx : Context) (c : ClockConstraintExpression) : Bool :=
  match ctx.get_val c.threshold with
  | none => true
  | some t =>
    if c.operator = "<" then (if c.equality then decide ((0 : Int) ≤ t) else decide ((0 : Int) < t))
    else if c.operator = ">" then (if c.equality then decide (t ≤ (0 : Int)) else decide (t < (0 : Int)))
    else decide (t = (0 : Int))

/-- Every constant-threshold clock constraint of the location's invariant
holds at accumulated clock value `0` (spec-side predicate for claim C4). -/
def invariant_holds_at_zero (ctx : Context) (l : Location) : Bool :=
  l.get_constraints.all (fun c =>
    match c with
    | .clock cce => clock_constraint_holds_at_zero ctx cce
    | .generic _ _ _ => true)

/-! ## Heap-level model of `Context.to_MutableContext` (claim C10)

`to_MutableContext` deep-copies the three collections with `copy.deepcopy`;
the claim is about aliasing, so this section models the Python heap
explicitly: a store of collection objects addressed by index, a context
object holding three references, deep copy as allocation of fresh cells, and
mutation as an in-place write through the clone's reference. -/

/-- A heap cell: either a set of clock names or a dict from identifiers to
integers. -/
inductive PyCollection where
  | strs (l : List String)
  | imap (m : List (String × Int))
deriving DecidableEq, Repr

/-- The heap: collection objects addressed by their index. -/
abbrev Store := List PyCollection

/-- A `Context` object on the heap: references to its three collections. -/
structure ContextRef where
  clocksRef : Nat
  constantsRef : Nat
  initialStateRef : Nat
deriving DecidableEq, Repr

/-- `Context.to_MutableContext` on the heap: `deepcopy` each collection into
a fresh cell and return the clone referencing the new cells. -/
def to_MutableContext_heap (st : Store) (c : ContextRef) : Store × ContextRef :=
  let clocksVal := st[c.clocksRef]?.getD (.strs [])
  let constVal := st[c.constantsRef]?.getD (.imap [])
  let initVal := st[c.initialStateRef]?.getD (.imap [])
  (st ++ [clocksVal, constVal, initVal], ⟨st.length, st.length + 1, st.length + 2⟩)

/-- Heap-level `get_val`: value of a literal, a constant or a variable read
through the context's references. -/
def heap_get_val (st : Store) (c : ContextRef) (i : String) : Option Int :=
  if Context.is_literal i then int_of_string i
  else
    match st[c.constantsRef]? with
    | some (.imap m) =>
      match alookup i m with
      | some v => some v
      | none =>
        match st[c.initialStateRef]? with
        | some (.imap m₂) => alookup i m₂
        | _ => none
    | _ => none

/-- Heap-level `MutableContext.set_val`: in-place write to the variables
dict through the context's `initial_state` reference. -/
def heap_set_val (st : Store) (c : ContextRef) (i : String) (v : Int) : Store :=
  match st[c.initialStateRef]? with
  | some (.imap m) => st.set c.initialStateRef (.imap (aset i v m))
  | _ => st

/-- Heap-level `UpdateExpression.handle_update`: the reads happen before the
single `set_val` write, so a failing read (Python exception) leaves the heap
unchanged. -/
def heap_handle_update (st : Store) (c : ContextRef) (u : UpdateExpression) : Store :=
  match heap_get_val st c u.lhs, heap_get_val st c u.rhs with
  | some cur, some rhs =>
    if u.op = "=" then heap_set_val st c u.lhs rhs
    else if u.op = "+=" then heap_set_val st c u.lhs (cur + rhs)
    else if u.op = "-=" then heap_set_val st c u.lhs (cur - rhs)
    else st
  | _, _ => st

/-- A mutation of the clone: a direct `set_val`, or a `handle_update` as
performed by `path_realizable_with_initial_valuation` while walking a path. -/
inductive CloneMutation where
  | setVal (i : String) (v : Int)
  | update (u : UpdateExpression)
deriving Repr

/-- Apply a sequence of mutations to the clone, left to right. -/
def apply_mutations (c : ContextRef) : Store → List CloneMutation → Store
  | st, [] => st
  | st, .setVal i v :: rest => apply_mutations c (heap_set_val st c i v) rest
  | st, .update u :: rest => apply_mutations c (heap_handle_update st c u) rest

/-! ## Concrete automata used as witnesses and counterexamples -/

/-- A context declaring the single clock `x`. -/
def ctxX : Context := ⟨["x"], [], []⟩

/-- A template over `ctxX`. -/
def tmplX : Template := ⟨ctxX⟩

/-- A context declaring the single clock `c`. -/
def ctxC : Context := ⟨["c"], [], []⟩

/-- A template over `ctxC`. -/
def tmplC : Template := ⟨ctxC⟩

/-- The clock constraint `x >= 1`. -/
def cceGe1 : ClockConstraintExpression := ⟨["x"], ">", true, "1"⟩

/-- The clock constraint `x <= -1`. -/
def cceLeNeg1 : ClockConstraintExpression := ⟨["x"], "<", true, "-1"⟩

/-- The clock constraint `x >= 5`. -/
def cceGe5 : ClockConstraintExpression := ⟨["x"], ">", true, "5"⟩

/-- The strict clock constraint `x < 5`. -/
def cceLt5 : ClockConstraintExpression := ⟨["x"], "<", false, "5"⟩

/-- The equality clock constraint `c == 3`. -/
def cceEq3 : ClockConstraintExpression := ⟨["c"], "=", true, "3"⟩

/-- The clock constraint `c >= 10`. -/
def cceGe10 : ClockConstraintExpression := ⟨["c"], ">", true, "10"⟩

/-- The clock constraint `c <= 5`. -/
def cceLe5C : ClockConstraintExpression := ⟨["c"], "<", true, "5"⟩

/-- The reset `c = 0`, as parsed into a `ClockResetExpression`. -/
def resetC : UpdateExpression := ⟨"c", "=", "0", true⟩

/-- Single-edge path `id0 --(x >= 1)--> id1` (claim C1's failing input,
together with `icv_constants = {"x": 1}`). -/
def pathIcv : Path :=
  ⟨⟨"id0", none, some tmplX⟩,
   [(⟨"id0", "id1", some ⟨[.clock cceGe1]⟩, none⟩, ⟨"id1", none, none⟩)]⟩

/-- Single-edge path `id0 --(x <= -1)--> id1`, unrealizable even with free
initial clock valuations (claim C2's failing input). -/
def pathNeg : Path :=
  ⟨⟨"id0", none, some tmplX⟩,
   [(⟨"id0", "id1", some ⟨[.clock cceLeNeg1]⟩, none⟩, ⟨"id1", none, none⟩)]⟩

/-- A single location whose invariant `x >= 1` is violated at accumulated
clock value 0 (claim C4's counterexample input). -/
def pathSingle : Path :=
  ⟨⟨"id0", some ⟨[.clock cceGe1]⟩, some tmplX⟩, []⟩

/-- Single-edge path `id0 --(c == 3)--> id1` (claim C5's scenario). -/
def pathEq3 : Path :=
  ⟨⟨"id0", none, some tmplC⟩,
   [(⟨"id0", "id1", some ⟨[.clock cceEq3]⟩, none⟩, ⟨"id1", none, none⟩)]⟩

/-- Single-edge path with guard `x >= 5 && x < 5`: realizable exactly at
delay 5, where the strict constraint holds only with equality (claim C6's
scenario). -/
def pathTight : Path :=
  ⟨⟨"id0", none, some tmplX⟩,
   [(⟨"id0", "id1", some ⟨[.clock cceGe5, .clock cceLt5]⟩, none⟩, ⟨"id1", none, none⟩)]⟩

/-- Three-segment path: guard `c >= 10` and reset `c = 0` on the first
transition, then two plain segments into a location with invariant `c <= 5`
(claim C7's scenario: 10 time units elapse before the reset, the invariant
location is reached 2 segments after it). -/
def pathReset : Path :=
  ⟨⟨"id0", none, some tmplC⟩,
   [(⟨"id0", "id1", some ⟨[.clock cceGe10]⟩, some ⟨[resetC]⟩⟩, ⟨"id1", none, none⟩),
    (⟨"id1", "id2", none, none⟩, ⟨"id2", none, none⟩),
    (⟨"id2", "id3", none, none⟩, ⟨"id3", some ⟨[.clock cceLe5C]⟩, none⟩)]⟩

/-- A path whose transition claims source `idX`, mismatching the actual
previous location `id0` (claim C8's witness input). -/
def pathBroken : Path :=
  ⟨⟨"id0", none, some tmplX⟩,
   [(⟨"idX", "id1", none, none⟩, ⟨"id1", none, none⟩)]⟩

/-- A concrete three-cell heap: a clocks set, a constants map and a
variables map (claim C10's witness input). -/
def storeEx : Store := [.strs ["x"], .imap [("k", 2)], .imap [("n", 0)]]

/-- A context object referencing the three cells of `storeEx`. -/
def ctxRefEx : ContextRef := ⟨0, 1, 2⟩

/-- A mutation sequence for the clone: a direct `set_val` and a `+=` update
(claim C10's witness input). -/
def mutsEx : List CloneMutation := [.setVal "n" 5, .update ⟨"n", "+=", "1", false⟩]

/-! ## The two-run epsilon relation (claim C6) -/

/-- Relation between a right-hand side of the `add_epsilon = True` run and
the corresponding one of the `add_epsilon = False` run: equal, or tightened
by `EPS`. -/
def epsRel (bt bf : ℚ) : Prop := bt = bf ∨ bt = bf - EPS

/-- Well-formed operator data: `==` tokenizes into operator `=` with
`equality = True`, so a parsed clock constraint never carries operator `=`
with `equality = False`; the epsilon analysis assumes this shape. -/
def wf_ops_cce (c : ClockConstraintExpression) : Bool :=
  if c.operator = "=" then c.equality else true

/-- `wf_ops_cce` for every clock constraint of a list. -/
def wf_ops_constraints (cs : List ConstraintExpression) : Bool :=
  cs.all (fun c => match c with
    | .clock e => wf_ops_cce e
    | .generic _ _ _ => true)

/-- `wf_ops_constraints` for an optional label. -/
def wf_ops_label : Option ConstraintLabel → Bool
  | none => true
  | some lab => wf_ops_constraints lab.constraints

/-- Every constraint along the path has well-formed operator data. -/
def wf_ops_path (p : Path) : Bool :=
  wf_ops_label p.first.invariant &&
    p.rest.all (fun tl => wf_ops_label tl.1.guard && wf_ops_label tl.2.invariant)

/-- The relation between the LP-construction states of the two runs: same
rows, same `clock_to_delay`, same context, right-hand sides related by
`epsRel` pointwise. -/
def StRel (st₁ st₂ : LPBuild) : Prop :=
  st₁.A = st₂.A ∧ List.Forall₂ epsRel st₁.B st₂.B ∧ st₁.ctd = st₂.ctd ∧ st₁.ctx = st₂.ctx

/-! ## Helper lemmas -/

theorem alookup_aset_self {α : Type} (k : String) (v : α) (m : List (String × α)) :
    alookup k (aset k v m) = some v := by
  induction m with
  | nil => simp [aset, alookup]
  | cons hd tl ih =>
    by_cases h : hd.1 = k
    · simp [aset, alookup, h]
    · simp [aset, alookup, h, ih]

theorem alookup_aset_ne {α : Type} (k k₂ : String) (v : α) (m : List (String × α))
    (h : k₂ ≠ k) : alookup k (aset k₂ v m) = alookup k m := by
  induction m with
  | nil => simp [aset, alookup, h]
  | cons hd tl ih =>
    by_cases h₂ : hd.1 = k₂
    · simp [aset, alookup, h₂, h]
    · simp [aset, alookup, h₂, ih]

theorem apply_resets_keep (c : String) (rs : List String) (m : List (String × List Nat))
    (h : alookup c m = some []) : alookup c (apply_resets rs m) = some [] := by
  induction rs generalizing m with
  | nil => exact h
  | cons hd tl ih =>
    by_cases hc : hd = c
    · exact ih _ (hc ▸ alookup_aset_self hd [] m)
    · exact ih _ ((alookup_aset_ne c hd [] m hc).trans h)

theorem apply_resets_mem (c : String) (rs : List String) (m : List (String × List Nat))
    (h : c ∈ rs) : alookup c (apply_resets rs m) = some [] := by
  induction rs generalizing m with
  | nil => cases h
  | cons hd tl ih =>
    by_cases hc : hd = c
    · exact apply_resets_keep c tl _ (hc ▸ alookup_aset_self hd [] m)
    · cases h with
      | head => exact absurd rfl hc
      | tail _ h₂ => exact ih _ h₂

theorem forall₂_getD {R : ℚ → ℚ → Prop} {l₁ l₂ : List ℚ}
    (h : List.Forall₂ R l₁ l₂) (i : Nat) (h₁ : i < l₁.length) (d₁ d₂ : ℚ) :
    R (l₁.getD i d₁) (l₂.getD i d₂) := by
  induction h generalizing i with
  | nil => simp at h₁
  | cons hr _ ih =>
    match i with
    | 0 => simpa using hr
    | j + 1 => simpa using ih j (by simpa using h₁)

/-! ## Claim theorems -/

/-- C8: for every path failing the adjacency check, `path_realizable` with
`validate_path = True` returns the ordinary `(False, [])` result before any
LP is constructed or solved (the `earlyExit` outcome), for every setting of
the remaining parameters. -/
theorem C8_invalid_path_early_exit (p : Path) (vstate eps : Bool)
    (icv : Option (List (String × Int))) (cks : Option (List String))
    (h : path_exists p = false) :
    path_realizable_with_initial_valuation p true vstate eps icv cks =
      some LPOutcome.earlyExit := by
  unfold path_realizable_with_initial_valuation
  simp [h]

/-- Witness for C8: the concrete path whose transition's source id mismatches
the preceding location. -/
theorem C8_invalid_path_early_exit_witness :
    path_exists pathBroken = false ∧
    path_realizable_with_initial_valuation pathBroken true false false none none =
      some LPOutcome.earlyExit :=
  ⟨by decide, C8_invalid_path_early_exit pathBroken false false none none (by decide)⟩

/-- Counterexample to C4 as stated: a single location whose invariant
`x >= 1` is violated at accumulated clock value 0 is nevertheless reported
realizable — the LP handed to the solver is empty (no rows, no variables)
and trivially feasible, while the spec-side at-zero check is false. -/
theorem C4_counterexample :
    path_realizable pathSingle false false false =
      some (LPOutcome.lp [] [] 0) ∧
    Feasible [] [] 0 ∧
    invariant_holds_at_zero ctxX pathSingle.first = false := by
  refine ⟨by decide, ⟨[], rfl, ?_, ?_⟩, by decide⟩
  · intro v hv
    cases hv
  · intro i hi
    simp at hi

/-- C4 (amended): for every single-location path, the constraint-emission
loop iterates over segments only, so no invariant constraint is imposed:
`path_realizable` constructs the empty LP over zero variables and returns
`(True, [])` unconditionally, for every setting of the flags. -/
theorem C4_single_location_trivial (l : Location) (tm : Template)
    (hl : l.template = some tm) (vp vs eps : Bool) :
    path_realizable ⟨l, []⟩ vp vs eps = some (LPOutcome.lp [] [] 0) ∧
    Feasible [] [] 0 := by
  constructor
  · unfold path_realizable path_realizable_with_initial_valuation
    simp [path_exists, path_exists_aux, hl, walk_segments]
  · refine ⟨[], rfl, ?_, ?_⟩
    · intro v hv
      cases hv
    · intro i hi
      simp at hi

/-- Witness for C4's amended theorem at the concrete counterexample
location. -/
theorem C4_single_location_trivial_witness :
    path_realizable ⟨pathSingle.first, []⟩ false false false =
      some (LPOutcome.lp [] [] 0) ∧ Feasible [] [] 0 :=
  C4_single_location_trivial pathSingle.first tmplX (by decide) false false false

/-- C1 (the code as it behaves): pinning clock `x` to `1` through
`icv_constants` emits the rows `-icv <= 0` and `icv <= -1` (not the claimed
`-icv <= -1` and `icv <= 1`): the local list `b` is reassigned only after
`b[0]`'s original value `0` was already appended to `B`.  The resulting LP
is infeasible, so the path is reported unrealizable instead of being checked
under initial valuation `x = 1`. -/
theorem C1_icv_rows_emitted :
    path_realizable_with_initial_valuation pathIcv false false false
      (some [("x", 1)]) none =
      some (LPOutcome.lp [[-1, 0], [1, 0], [-1, -1]] [0, -1, -1] 2) ∧
    ¬ Feasible [[-1, 0], [1, 0], [-1, -1]] [0, -1, -1] 2 := by
  constructor
  · decide
  · rintro ⟨x, hlen, hnn, hrows⟩
    obtain ⟨a, b, rfl⟩ := List.length_eq_two.mp hlen
    have h₁ := hrows 1 (by norm_num)
    have ha := hnn a (by simp)
    simp [dot] at h₁
    linarith

/-- C2 (the code as it behaves): the DP append sites branch on the returned
tuple, which is truthy regardless of its boolean, so even a path whose
free-initial-valuation LP is infeasible — such as the single edge guarded by
`x <= -1` — passes the guard and is appended. -/
theorem C2_dp_guard_never_filters :
    (∀ (flag : Bool) (delays : List ℚ), dp_append_guard (flag, delays) = true) ∧
    path_realizable_with_initial_valuation pathNeg false false false
      (some []) none =
      some (LPOutcome.lp [[-1, 0], [1, 1]] [0, -1] 2) ∧
    ¬ Feasible [[-1, 0], [1, 1]] [0, -1] 2 := by
  refine ⟨fun flag delays => rfl, by decide, ?_⟩
  rintro ⟨x, hlen, hnn, hrows⟩
  obtain ⟨a, b, rfl⟩ := List.length_eq_two.mp hlen
  have h₁ := hrows 1 (by norm_num)
  have ha := hnn a (by simp)
  have hb := hnn b (by simp)
  simp [dot] at h₁
  linarith

/-- C3 (the code as it behaves): `check_dp` branches on the tuple returned
by `path_realizable(p, True, True)`, which is always truthy, so it returns
`True` exactly when some cell stores any path at all — the per-path
realizability result is ignored; in particular a table holding only the
unrealizable `pathNeg` still satisfies `check_dp`. -/
theorem C3_check_dp_ignores_result :
    (∀ (result : Path → Bool × List ℚ) (pps : List (List Path)),
      check_dp result pps = pps.any (fun ps => !ps.isEmpty)) ∧
    check_dp (fun _ => (false, [])) [[pathNeg]] = true := by
  constructor
  · intro result pps
    unfold check_dp realizable_return PyObj.truthy
    induction pps with
    | nil => rfl
    | cons hd tl ih =>
      simp only [List.any_cons, ih]
      congr 1
      cases hd <;> simp
  · rfl

/-- C5: `compute_constraint` turns an equality clock constraint (parsed from
`==` into operator `=` with `equality = True`) into the coefficient row with
right-hand side `t` together with its negation with right-hand side `-t`;
on the concrete path guarded by `c == 3` the LP is feasible (witness delay
3) and every feasible point's accumulated delay on `c` equals exactly 3, so
any other forced sum (such as 3.5) is infeasible. -/
theorem C5_equality_two_rows :
    (∀ (ctd : List (String × List Nat)) (exp : ClockConstraintExpression)
      (n : Nat) (ctx : Context) (vs : Bool) (rows : List (List ℚ)) (rhs : List ℚ),
      exp.operator = "=" →
      (ctx.is_variable exp.threshold && vs) = false →
      compute_constraint ctd exp n ctx false vs = some (rows, rhs) →
      ∃ r t, rows = [r, r.map (fun q => -q)] ∧ rhs = [t, -t]) ∧
    ConstraintExpression.parse_expr "c == 3" ctxC =
      some (ConstraintExpression.clock cceEq3) ∧
    path_realizable pathEq3 false false false =
      some (LPOutcome.lp [[1], [-1]] [3, -3] 1) ∧
    Feasible [[1], [-1]] [3, -3] 1 ∧
    (∀ x : List ℚ, FeasiblePoint [[1], [-1]] [3, -3] x → dot [1] x = 3) := by
  refine ⟨?_, by decide, by decide, ⟨[3], rfl, ?_, ?_⟩, ?_⟩
  · intro ctd exp n ctx vs rows rhs hop hskip hcc
    unfold compute_constraint at hcc
    rw [hskip] at hcc
    simp only [Bool.false_eq_true, if_false] at hcc
    split at hcc
    · cases hcc
    · split at hcc
      · cases hcc
      · split at hcc
        · cases hcc
        · split at hcc
          · cases hcc
          · rw [hop] at hcc
            simp only [Bool.false_and, Bool.false_eq_true, if_false, if_true,
              if_neg (by decide : ¬ (("=" : String) = ">")), if_pos rfl,
              Option.some.injEq, Prod.mk.injEq] at hcc
            exact ⟨_, _, hcc.1.symm, hcc.2.symm⟩
  · intro v hv
    simp at hv
    simp [hv]
  · intro i hi
    simp only [List.length_cons, List.length_nil] at hi
    interval_cases i <;> norm_num [dot]
  · intro x hx
    obtain ⟨hnn, hrows⟩ := hx
    cases x with
    | nil =>
      have h₁ := hrows 1 (by norm_num)
      simp [dot] at h₁
      linarith
    | cons a l =>
      have h₀ := hrows 0 (by norm_num)
      have h₁ := hrows 1 (by norm_num)
      simp [dot] at h₀ h₁ ⊢
      linarith

/-- Witness for C5's general conjunct, instantiated at the concrete `c == 3`
constraint over one variable with the clock's delay list `[0]`. -/
theorem C5_equality_two_rows_witness :
    cceEq3.operator = "=" ∧
    (ctxC.is_variable cceEq3.threshold && false) = false ∧
    ∃ r t,
      ([[(1 : ℚ)], [-1]] : List (List ℚ)) = [r, r.map (fun q => -q)] ∧
      ([3, -3] : List ℚ) = [t, -t] := by
  have h := C5_equality_two_rows.1 [("c", [0])] cceEq3 1 ctxC false
    [[1], [-1]] [3, -3] (by decide) (by decide) (by decide)
  exact ⟨by decide, by decide, h⟩

/-- C7: a reset empties the clock's delay-variable list (general conjunct:
after `apply_resets`, every reset clock maps to `[]`), so constraints emitted
later sum only the delay variables of later segments; concretely, on
`pathReset` — where `c >= 10` forces 10 time units before the reset and the
invariant `c <= 5` is reached two segments after it — the emitted LP is
`[-d1 <= -10, d2 + d3 <= 5]` (the invariant row touching only the two
post-reset delays, not the initial-valuation or first delay), and it is
feasible with delays `(10, 0, 0)`. -/
theorem C7_reset_clears_accumulated_delay :
    (∀ (c : String) (rs : List String) (m : List (String × List Nat)),
      c ∈ rs → alookup c (apply_resets rs m) = some []) ∧
    path_realizable pathReset false false false =
      some (LPOutcome.lp [[-1, 0, 0], [0, 1, 1]] [-10, 5] 3) ∧
    Feasible [[-1, 0, 0], [0, 1, 1]] [-10, 5] 3 := by
  refine ⟨fun c rs m h => apply_resets_mem c rs m h, by decide, ⟨[10, 0, 0], rfl, ?_, ?_⟩⟩
  · intro v hv
    fin_cases hv <;> norm_num
  · intro i hi
    simp only [List.length_cons, List.length_nil] at hi
    interval_cases i <;> norm_num [dot]

/-- C9: an update expression whose tokenized left-hand side is a clock of the
context parses to a `ClockResetExpression` whatever its operator and
right-hand side; `get_resets` reports it, `get_other_updates` omits it, and
the engine's assignment step merely empties the clock's delay-variable list,
leaving the mutable context untouched. -/
theorem C9_clock_lhs_always_reset (s : String) (ctx : Context) (lhs op rhs : String)
    (htok : tokenize s "=<>!+-" = some (lhs, op, rhs))
    (hclk : ctx.is_clock lhs = true) :
    UpdateExpression.parse_expr s ctx = some ⟨lhs, op, rhs, true⟩ ∧
    UpdateLabel.get_resets ⟨[⟨lhs, op, rhs, true⟩]⟩ = [lhs] ∧
    UpdateLabel.get_other_updates ⟨[⟨lhs, op, rhs, true⟩]⟩ = [] ∧
    ∀ st : LPBuild, apply_assignment (some ⟨[⟨lhs, op, rhs, true⟩]⟩) st =
      some { st with ctd := aset lhs [] st.ctd } := by
  refine ⟨?_, ?_, ?_, ?_⟩
  · unfold UpdateExpression.parse_expr
    rw [htok]
    simp [hclk]
  · simp [UpdateLabel.get_resets]
  · simp [UpdateLabel.get_other_updates]
  · intro st
    simp [apply_assignment, UpdateLabel.get_resets, UpdateLabel.get_other_updates,
      apply_updates, apply_resets]

/-- Witness for C9: the update string `x = 5` over a context declaring the
clock `x` is parsed as a reset and handled as one by the assignment step. -/
theorem C9_clock_lhs_always_reset_witness :
    UpdateExpression.parse_expr "x = 5" ctxX = some ⟨"x", "=", "5", true⟩ ∧
    UpdateLabel.get_resets ⟨[⟨"x", "=", "5", true⟩]⟩ = ["x"] ∧
    UpdateLabel.get_other_updates ⟨[⟨"x", "=", "5", true⟩]⟩ = [] ∧
    apply_assignment (some ⟨[⟨"x", "=", "5", true⟩]⟩) ⟨[], [], [("x", [0])], ctxX⟩ =
      some ⟨[], [], aset "x" [] [("x", [0])], ctxX⟩ := by
  have h := C9_clock_lhs_always_reset "x = 5" ctxX "x" "=" "5" (by decide) (by decide)
  exact ⟨h.1, h.2.1, h.2.2.1, h.2.2.2 ⟨[], [], [("x", [0])], ctxX⟩⟩

theorem heap_set_val_frame (st : Store) (c : ContextRef) (i : String) (v : Int)
    (r : Nat) (h : r ≠ c.initialStateRef) :
    (heap_set_val st c i v)[r]? = st[r]? := by
  unfold heap_set_val
  split
  · exact List.getElem?_set_ne (fun he => h he.symm)
  · rfl

theorem heap_handle_update_frame (st : Store) (c : ContextRef) (u : UpdateExpression)
    (r : Nat) (h : r ≠ c.initialStateRef) :
    (heap_handle_update st c u)[r]? = st[r]? := by
  unfold heap_handle_update
  split
  · split
    · exact heap_set_val_frame st c u.lhs _ r h
    · split
      · exact heap_set_val_frame st c u.lhs _ r h
      · split
        · exact heap_set_val_frame st c u.lhs _ r h
        · rfl
  · rfl

theorem apply_mutations_frame (c : ContextRef) (muts : List CloneMutation) (st : Store)
    (r : Nat) (h : r ≠ c.initialStateRef) :
    (apply_mutations c st muts)[r]? = st[r]? := by
  induction muts generalizing st with
  | nil => rfl
  | cons m rest ih =>
    cases m with
    | setVal i v =>
      exact (ih (heap_set_val st c i v)).trans (heap_set_val_frame st c i v r h)
    | update u =>
      exact (ih (heap_handle_update st c u)).trans (heap_handle_update_frame st c u r h)

/-- C10: `to_MutableContext` deep-copies the clocks set, the constants map
and the initial_state map into fresh heap cells, and no sequence of
mutations of the clone — direct `set_val` calls or `handle_update`s as
applied while `path_realizable` walks a path — changes any of the original
context's three collections; moreover the copies initially read equal to the
originals. -/
theorem C10_clone_never_aliases_original (st : Store) (c₀ : ContextRef)
    (h₁ : c₀.clocksRef < st.length) (h₂ : c₀.constantsRef < st.length)
    (h₃ : c₀.initialStateRef < st.length) (muts : List CloneMutation) :
    (to_MutableContext_heap st c₀).1[(to_MutableContext_heap st c₀).2.clocksRef]? =
      st[c₀.clocksRef]? ∧
    (to_MutableContext_heap st c₀).1[(to_MutableContext_heap st c₀).2.constantsRef]? =
      st[c₀.constantsRef]? ∧
    (to_MutableContext_heap st c₀).1[(to_MutableContext_heap st c₀).2.initialStateRef]? =
      st[c₀.initialStateRef]? ∧
    (apply_mutations (to_MutableContext_heap st c₀).2 (to_MutableContext_heap st c₀).1
        muts)[c₀.clocksRef]? = st[c₀.clocksRef]? ∧
    (apply_mutations (to_MutableContext_heap st c₀).2 (to_MutableContext_heap st c₀).1
        muts)[c₀.constantsRef]? = st[c₀.constantsRef]? ∧
    (apply_mutations (to_MutableContext_heap st c₀).2 (to_MutableContext_heap st c₀).1
        muts)[c₀.initialStateRef]? = st[c₀.initialStateRef]? := by
  have hread : ∀ r : Nat, r < st.length →
      (to_MutableContext_heap st c₀).1[r]? = st[r]? := by
    intro r hr
    unfold to_MutableContext_heap
    simp only
    exact List.getElem?_append_left hr
  have hcl : (to_MutableContext_heap st c₀).2 = ⟨st.length, st.length + 1, st.length + 2⟩ := rfl
  have hframe : ∀ r : Nat, r < st.length →
      (apply_mutations (to_MutableContext_heap st c₀).2 (to_MutableContext_heap st c₀).1
        muts)[r]? = st[r]? := by
    intro r hr
    rw [apply_mutations_frame _ muts _ r (by rw [hcl]; simp; omega)]
    exact hread r hr
  refine ⟨?_, ?_, ?_, hframe _ h₁, hframe _ h₂, hframe _ h₃⟩
  · unfold to_MutableContext_heap
    simp only
    rw [List.getElem?_append_right (Nat.le_refl _), Nat.sub_self]
    simp [List.getElem?_eq_getElem h₁]
  · unfold to_MutableContext_heap
    simp only
    rw [List.getElem?_append_right (Nat.le_add_right _ _), Nat.add_sub_cancel_left]
    simp [List.getElem?_eq_getElem h₂]
  · unfold to_MutableContext_heap
    simp only
    rw [List.getElem?_append_right (Nat.le_add_right _ _), Nat.add_sub_cancel_left]
    simp [List.getElem?_eq_getElem h₃]

/-- Witness for C10: on the concrete three-cell heap, after a `set_val` and
a `+=` update of the clone, the original context still reads its unchanged
variables map. -/
theorem C10_clone_never_aliases_original_witness :
    ctxRefEx.initialStateRef < storeEx.length ∧
    (apply_mutations (to_MutableContext_heap storeEx ctxRefEx).2
      (to_MutableContext_heap storeEx ctxRefEx).1 mutsEx)[ctxRefEx.initialStateRef]? =
      storeEx[ctxRefEx.initialStateRef]? :=
  ⟨by decide, (C10_clone_never_aliases_original storeEx ctxRefEx (by decide) (by decide)
    (by decide) mutsEx).2.2.2.2.2⟩

theorem forall₂_epsRel_refl (l : List ℚ) : List.Forall₂ epsRel l l := by
  induction l with
  | nil => exact List.Forall₂.nil
  | cons a l ih => exact List.Forall₂.cons (Or.inl rfl) ih

theorem forall₂_epsRel_map_sub (l : List ℚ) :
    List.Forall₂ epsRel (l.map (fun q => q - EPS)) l := by
  induction l with
  | nil => exact List.Forall₂.nil
  | cons a l ih => exact List.Forall₂.cons (Or.inr rfl) ih

theorem compute_constraint_nonstrict (ctd : List (String × List Nat))
    (exp : ClockConstraintExpression) (n : Nat) (ctx : Context) (vs : Bool)
    (heq : exp.equality = true) :
    compute_constraint ctd exp n ctx true vs = compute_constraint ctd exp n ctx false vs := by
  simp [compute_constraint, heq]

theorem compute_constraint_strict (ctd : List (String × List Nat))
    (exp : ClockConstraintExpression) (n : Nat) (ctx : Context) (vs : Bool)
    (heq : exp.equality = false) (hop : ¬ exp.operator = "=") :
    compute_constraint ctd exp n ctx true vs =
      (compute_constraint ctd exp n ctx false vs).map
        (fun pr => (pr.1, pr.2.map (fun q => q - EPS))) := by
  unfold compute_constraint
  split
  · rfl
  · repeat' split
    all_goals first
      | rfl
      | (exact absurd ‹exp.operator = "="› hop)
      | (exact absurd ‹(false && decide (exp.equality = false)) = true› (by simp))
      | (exact absurd (by simp [heq] : (true && decide (exp.equality = false)) = true)
          ‹¬(true && decide (exp.equality = false)) = true›)

theorem compute_constraint_eps_rel (ctd : List (String × List Nat))
    (exp : ClockConstraintExpression) (n : Nat) (ctx : Context) (vs : Bool)
    (hwf : wf_ops_cce exp = true) :
    (compute_constraint ctd exp n ctx true vs = none ∧
     compute_constraint ctd exp n ctx false vs = none) ∨
    ∃ a bt bf, compute_constraint ctd exp n ctx true vs = some (a, bt) ∧
      compute_constraint ctd exp n ctx false vs = some (a, bf) ∧
      List.Forall₂ epsRel bt bf := by
  cases heq : exp.equality with
  | true =>
    rw [compute_constraint_nonstrict ctd exp n ctx vs heq]
    cases hc : compute_constraint ctd exp n ctx false vs with
    | none => exact Or.inl ⟨rfl, rfl⟩
    | some pr => exact Or.inr ⟨pr.1, pr.2, pr.2, rfl, rfl, forall₂_epsRel_refl pr.2⟩
  | false =>
    have hop : ¬ exp.operator = "=" := by
      intro h
      rw [wf_ops_cce, if_pos h, heq] at hwf
      cases hwf
    rw [compute_constraint_strict ctd exp n ctx vs heq hop]
    cases hc : compute_constraint ctd exp n ctx false vs with
    | none => exact Or.inl ⟨rfl, rfl⟩
    | some pr =>
      exact Or.inr ⟨pr.1, pr.2.map (fun q => q - EPS), pr.2, rfl, rfl,
        forall₂_epsRel_map_sub pr.2⟩

theorem emit_constraints_eps (n : Nat) (vs : Bool) :
    ∀ (cs : List ConstraintExpression), wf_ops_constraints cs = true →
    ∀ (st₁ st₂ : LPBuild), StRel st₁ st₂ →
    (emit_constraints n true vs cs st₁ = none ∧
     emit_constraints n false vs cs st₂ = none) ∨
    ∃ st₃ st₄, emit_constraints n true vs cs st₁ = some st₃ ∧
      emit_constraints n false vs cs st₂ = some st₄ ∧ StRel st₃ st₄ := by
  intro cs
  induction cs with
  | nil => exact fun _ st₁ st₂ h => Or.inr ⟨st₁, st₂, rfl, rfl, h⟩
  | cons c rest ih =>
    intro hwf st₁ st₂ h
    cases c with
    | generic lhs op rhs =>
      have hwfr : wf_ops_constraints rest = true := by
        unfold wf_ops_constraints at hwf ⊢
        simp only [List.all_cons, Bool.and_eq_true] at hwf
        exact hwf.2
      simpa only [emit_constraints] using ih hwfr st₁ st₂ h
    | clock cce =>
      have hwfc : wf_ops_cce cce = true := by
        unfold wf_ops_constraints at hwf
        simp only [List.all_cons, Bool.and_eq_true] at hwf
        exact hwf.1
      have hwfr : wf_ops_constraints rest = true := by
        unfold wf_ops_constraints at hwf ⊢
        simp only [List.all_cons, Bool.and_eq_true] at hwf
        exact hwf.2
      obtain ⟨hA, hB, hctd, hctx⟩ := h
      rcases compute_constraint_eps_rel st₂.ctd cce n st₂.ctx vs hwfc with
        ⟨hn₁, hn₂⟩ | ⟨a, bt, bf, h₁, h₂, hfor⟩
      · left
        constructor
        · simp only [emit_constraints, hctd, hctx, hn₁]
        · simp only [emit_constraints, hn₂]
      · have hrel : StRel ⟨st₁.A ++ a, st₁.B ++ bt, st₂.ctd, st₂.ctx⟩
            ⟨st₂.A ++ a, st₂.B ++ bf, st₂.ctd, st₂.ctx⟩ :=
          ⟨by rw [hA], List.rel_append hB hfor, rfl, rfl⟩
        rcases ih hwfr _ _ hrel with ⟨hn₁, hn₂⟩ | ⟨s₃, s₄, e₁, e₂, hr⟩
        · left
          constructor
          · simp only [emit_constraints, hctd, hctx, h₁]
            exact hn₁
          · simp only [emit_constraints, h₂]
            exact hn₂
        · right
          refine ⟨s₃, s₄, ?_, ?_, hr⟩
          · simp only [emit_constraints, hctd, hctx, h₁]
            exact e₁
          · simp only [emit_constraints, h₂]
            exact e₂

theorem emit_label_eps (n : Nat) (vs : Bool) (lab : Option ConstraintLabel)
    (hwf : wf_ops_label lab = true) (st₁ st₂ : LPBuild) (h : StRel st₁ st₂) :
    (emit_label n true vs lab st₁ = none ∧ emit_label n false vs lab st₂ = none) ∨
    ∃ st₃ st₄, emit_label n true vs lab st₁ = some st₃ ∧
      emit_label n false vs lab st₂ = some st₄ ∧ StRel st₃ st₄ := by
  cases lab with
  | none => exact Or.inr ⟨st₁, st₂, rfl, rfl, h⟩
  | some l => exact emit_constraints_eps n vs l.constraints hwf st₁ st₂ h

theorem apply_assignment_eps (asg : Option UpdateLabel) (st₁ st₂ : LPBuild)
    (h : StRel st₁ st₂) :
    (apply_assignment asg st₁ = none ∧ apply_assignment asg st₂ = none) ∨
    ∃ st₃ st₄, apply_assignment asg st₁ = some st₃ ∧
      apply_assignment asg st₂ = some st₄ ∧ StRel st₃ st₄ := by
  obtain ⟨hA, hB, hctd, hctx⟩ := h
  cases asg with
  | none =>
    simp only [apply_assignment, hctx, hctd]
    cases happ : apply_updates [] st₂.ctx with
    | none => exact Or.inl ⟨rfl, rfl⟩
    | some ctx₂ => exact Or.inr ⟨_, _, rfl, rfl, hA, hB, rfl, rfl⟩
  | some lab =>
    simp only [apply_assignment, hctx, hctd]
    cases happ : apply_updates lab.get_other_updates st₂.ctx with
    | none => exact Or.inl ⟨rfl, rfl⟩
    | some ctx₂ => exact Or.inr ⟨_, _, rfl, rfl, hA, hB, rfl, rfl⟩

theorem walk_segments_eps (clocks : List String) (n off : Nat) (vs : Bool) :
    ∀ (rest : List (Transition × Location)) (s : Nat) (cur : Location),
    wf_ops_label cur.invariant = true →
    rest.all (fun tl => wf_ops_label tl.1.guard && wf_ops_label tl.2.invariant) = true →
    ∀ (st₁ st₂ : LPBuild), StRel st₁ st₂ →
    (walk_segments clocks n off true vs s cur rest st₁ = none ∧
     walk_segments clocks n off false vs s cur rest st₂ = none) ∨
    ∃ st₃ st₄, walk_segments clocks n off true vs s cur rest st₁ = some st₃ ∧
      walk_segments clocks n off false vs s cur rest st₂ = some st₄ ∧ StRel st₃ st₄ := by
  intro rest
  induction rest with
  | nil => exact fun s cur _ _ st₁ st₂ h => Or.inr ⟨st₁, st₂, rfl, rfl, h⟩
  | cons tl rest ih =>
    intro s cur hwfc hwfr st₁ st₂ h
    obtain ⟨t, nxt⟩ := tl
    simp only [List.all_cons, Bool.and_eq_true] at hwfr
    obtain ⟨⟨hwfg, hwfn⟩, hwfrest⟩ := hwfr
    rcases emit_label_eps n vs cur.invariant hwfc st₁ st₂ h with
      ⟨e₁, e₂⟩ | ⟨s₁, s₂, e₁, e₂, h₁⟩
    · exact Or.inl ⟨by simp only [walk_segments, e₁], by simp only [walk_segments, e₂]⟩
    · rcases emit_label_eps n vs t.guard hwfg s₁ s₂ h₁ with
        ⟨f₁, f₂⟩ | ⟨u₁, u₂, f₁, f₂, h₂⟩
      · exact Or.inl ⟨by simp only [walk_segments, e₁, f₁],
          by simp only [walk_segments, e₂, f₂]⟩
      · rcases apply_assignment_eps t.assignment u₁ u₂ h₂ with
          ⟨g₁, g₂⟩ | ⟨v₁, v₂, g₁, g₂, h₃⟩
        · exact Or.inl ⟨by simp only [walk_segments, e₁, f₁, g₁],
            by simp only [walk_segments, e₂, f₂, g₂]⟩
        · rcases emit_label_eps n vs nxt.invariant hwfn v₁ v₂ h₃ with
            ⟨k₁, k₂⟩ | ⟨w₁, w₂, k₁, k₂, h₄⟩
          · exact Or.inl ⟨by simp only [walk_segments, e₁, f₁, g₁, k₁],
              by simp only [walk_segments, e₂, f₂, g₂, k₂]⟩
          · have h₅ : StRel { w₁ with ctd := append_delays clocks (s + 1 + off) w₁.ctd }
                { w₂ with ctd := append_delays clocks (s + 1 + off) w₂.ctd } :=
              ⟨h₄.1, h₄.2.1, by rw [h₄.2.2.1], h₄.2.2.2⟩
            rcases ih (s + 1) nxt hwfn hwfrest _ _ h₅ with
              ⟨m₁, m₂⟩ | ⟨z₁, z₂, m₁, m₂, h₆⟩
            · left
              constructor
              · simp only [walk_segments, e₁, f₁, g₁, k₁]
                exact m₁
              · simp only [walk_segments, e₂, f₂, g₂, k₂]
                exact m₂
            · right
              refine ⟨z₁, z₂, ?_, ?_, h₆⟩
              · simp only [walk_segments, e₁, f₁, g₁, k₁]
                exact m₁
              · simp only [walk_segments, e₂, f₂, g₂, k₂]
                exact m₂

theorem path_realizable_eps (p : Path) (hwf : wf_ops_path p = true) :
    (path_realizable p false false true = none ∧
     path_realizable p false false false = none) ∨
    ∃ A Bt B n, path_realizable p false false true = some (LPOutcome.lp A Bt n) ∧
      path_realizable p false false false = some (LPOutcome.lp A B n) ∧
      List.Forall₂ epsRel Bt B := by
  have hwf1 : wf_ops_label p.first.invariant = true := by
    simp only [wf_ops_path, Bool.and_eq_true] at hwf
    exact hwf.1
  have hwfr : p.rest.all
      (fun tl => wf_ops_label tl.1.guard && wf_ops_label tl.2.invariant) = true := by
    simp only [wf_ops_path, Bool.and_eq_true] at hwf
    exact hwf.2
  unfold path_realizable path_realizable_with_initial_valuation
  simp only [Bool.false_and, Bool.false_eq_true, if_false]
  cases htm : p.first.template with
  | none => exact Or.inl ⟨rfl, rfl⟩
  | some tmpl =>
    simp only
    rcases walk_segments_eps (find_used_clocks p) p.rest.length 0 false p.rest 0 p.first
        hwf1 hwfr
        ⟨[], [], (find_used_clocks p).foldl (fun m c => aset c [0] m) [],
          tmpl.context.to_MutableContext⟩
        ⟨[], [], (find_used_clocks p).foldl (fun m c => aset c [0] m) [],
          tmpl.context.to_MutableContext⟩
        ⟨rfl, List.Forall₂.nil, rfl, rfl⟩ with
      ⟨w₁, w₂⟩ | ⟨st₃, st₄, w₁, w₂, hrel⟩
    · exact Or.inl ⟨by simp only [w₁], by simp only [w₂]⟩
    · refine Or.inr ⟨st₃.A, st₃.B, st₄.B, p.rest.length, ?_, ?_, hrel.2.1⟩
      · simp only [w₁]
      · rw [hrel.1]
        simp only [w₂]

/-- C6: with `add_epsilon = True` every strict clock constraint's right-hand
side is tightened by `EPS = 2^-10` after the `>` normalization (fourth
conclusion conjunct), and the two runs build the same rows over the same
variables with right-hand sides related by `epsRel`; consequently, for any
path realizable without epsilon all of whose witnesses satisfy some strict
row only with equality, `path_realizable` answers `True` without epsilon
(hypothesis `hfeas`) and `False` with it (last conjunct). -/
theorem C6_epsilon_monotonicity (p : Path) (A At : List (List ℚ)) (B Bt : List ℚ)
    (n nt : Nat)
    (hwf : wf_ops_path p = true)
    (hAB : A.length = B.length)
    (hf : path_realizable p false false false = some (LPOutcome.lp A B n))
    (ht : path_realizable p false false true = some (LPOutcome.lp At Bt nt))
    (hfeas : Feasible A B n)
    (htight : ∀ x : List ℚ, x.length = n → FeasiblePoint A B x →
      ∃ i, i < A.length ∧ Bt.getD i 0 = B.getD i 0 - EPS ∧
        dot (A.getD i []) x = B.getD i 0) :
    At = A ∧ nt = n ∧ List.Forall₂ epsRel Bt B ∧
    (∀ (ctd : List (String × List Nat)) (exp : ClockConstraintExpression)
      (n₂ : Nat) (ctx₂ : Context) (vs : Bool) (a : List (List ℚ)) (b : List ℚ),
      exp.equality = false → ¬ exp.operator = "=" →
      compute_constraint ctd exp n₂ ctx₂ false vs = some (a, b) →
      compute_constraint ctd exp n₂ ctx₂ true vs = some (a, b.map (fun q => q - EPS))) ∧
    ¬ Feasible At Bt nt := by
  have hepos : (0 : ℚ) < EPS := by norm_num [EPS]
  rcases path_realizable_eps p hwf with ⟨h₁, _⟩ | ⟨A₀, Bt₀, B₀, n₀, h₁, h₂, hrel⟩
  · rw [h₁] at ht
    cases ht
  · have e₁ := h₁.symm.trans ht
    have e₂ := h₂.symm.trans hf
    simp only [Option.some.injEq, LPOutcome.lp.injEq] at e₁ e₂
    obtain ⟨hA₀t, hB₀t, hn₀t⟩ := e₁
    obtain ⟨hA₀, hB₀, hn₀⟩ := e₂
    subst hA₀t
    subst hB₀t
    subst hn₀t
    subst hA₀
    subst hB₀
    subst hn₀
    refine ⟨rfl, rfl, hrel, ?_, ?_⟩
    · intro ctd exp n₂ ctx₂ vs a b hne hop hcc
      rw [compute_constraint_strict ctd exp n₂ ctx₂ vs hne hop, hcc]
      rfl
    · rintro ⟨x, hlen, hnn, hrows⟩
      have hlenB : Bt₀.length = B₀.length := List.Forall₂.length_eq hrel
      have hfp : FeasiblePoint A₀ B₀ x := by
        refine ⟨hnn, fun i hi => ?_⟩
        have hr := hrows i hi
        have hri := forall₂_getD hrel i (by omega) 0 0
        rcases hri with he | he
        · rw [he] at hr
          exact hr
        · rw [he] at hr
          linarith
      obtain ⟨i, hi, hstrict, hdot⟩ := htight x hlen hfp
      have hr := hrows i hi
      rw [hstrict, hdot] at hr
      linarith

set_option allowUnsafeReducibility true in
attribute [local semireducible] Rat.mul Rat.sub Rat.inv Rat.add in
/-- Witness for C6: the single-edge path guarded by `x >= 5 && x < 5`, whose
only witness is delay exactly 5: feasible without epsilon, infeasible with
it. -/
theorem C6_epsilon_monotonicity_witness :
    Feasible [[-1], [1]] [-5, 5] 1 ∧ ¬ Feasible [[-1], [1]] [-5, 5 - EPS] 1 := by
  have hfeas : Feasible [[-1], [1]] [(-5 : ℚ), 5] 1 := by
    refine ⟨[5], rfl, ?_, ?_⟩
    · intro v hv
      fin_cases hv <;> norm_num
    · intro i hi
      simp only [List.length_cons, List.length_nil] at hi
      interval_cases i <;> norm_num [dot]
  have htight : ∀ x : List ℚ, x.length = 1 → FeasiblePoint [[-1], [1]] [-5, 5] x →
      ∃ i, i < ([[-1], [1]] : List (List ℚ)).length ∧
        ([-5, 5 - EPS] : List ℚ).getD i 0 = ([(-5 : ℚ), 5] : List ℚ).getD i 0 - EPS ∧
        dot (([[-1], [1]] : List (List ℚ)).getD i []) x =
          ([(-5 : ℚ), 5] : List ℚ).getD i 0 := by
    intro x hlen hfp
    obtain ⟨a, rfl⟩ := List.length_eq_one.mp hlen
    obtain ⟨hnn, hrows⟩ := hfp
    have h₀ := hrows 0 (by norm_num)
    have h₁ := hrows 1 (by norm_num)
    simp [dot] at h₀ h₁
    refine ⟨1, by norm_num, by norm_num, ?_⟩
    simp [dot]
    linarith
  exact ⟨hfeas,
    (C6_epsilon_monotonicity pathTight [[-1], [1]] [[-1], [1]] [-5, 5] [-5, 5 - EPS] 1 1
      (by decide) (by decide) (by decide) (by decide) hfeas htight).2.2.2.2⟩
